import Mathlib

/-!
Shallow embedding of the E20 simulator `sim.py` and of the cache simulator
`simcache.py`.

Conventions used throughout: Python integers are unbounded, so they are
modelled as `Int`.  Python bitwise `x & (2^k - 1)` on an arbitrary integer
works on the two's-complement representation and therefore equals the
nonnegative residue `Int.emod x (2^k)`.  Python `//` and `%` are floor
division and its remainder, i.e. `Int.fdiv` and `Int.fmod`.  Indexing a
Python list of length `n` is defined for indices in `[-n, n)`, a negative
index counting from the end; any other index raises `IndexError`, which the
step functions surface as an error result.
-/

/-- Bitfield read `(x & m) >> sh` where `m` is the contiguous mask
`(2^w - 1) <<< sh`, as performed on Python ints: keep bits
`sh .. sh+w-1` of the two's-complement representation. -/
def bitfield (x : Int) (sh w : Nat) : Int :=
  Int.ediv (Int.emod x (2 ^ (sh + w))) (2 ^ sh)

/-- Register index: the register fields decoded by the simulator are 3-bit
values, hence in `[0, 8)`; `rIdx` maps them into `Fin 8`. -/
def rIdx (v : Int) : Fin 8 := ⟨v.toNat % 8, Nat.mod_lt _ (by decide)⟩

/-- The memory cell `i mod 8192`. -/
def idx13 (i : Int) : Fin 8192 :=
  ⟨(Int.emod i 8192).toNat, by
    refine (Int.toNat_lt' (by norm_num)).2 ?_
    exact_mod_cast Int.emod_lt_of_pos i (by norm_num)⟩

/-- Python list indexing on the length-8192 memory list: defined for
`-8192 ≤ i < 8192`, a negative index counting from the end — which
coincides with reducing mod 8192; anything else raises `IndexError`. -/
def memIdx (i : Int) : Option (Fin 8192) :=
  if -8192 ≤ i ∧ i < 8192 then some (idx13 i) else none

/-- Architectural state of the E20 core: `pc`, the 8 registers and the 8192
memory words.  All values are unbounded integers exactly as in the Python
code; folding into 16 or 13 bits happens (or fails to happen) inside the
step functions below. -/
structure CoreState where
  pc : Int
  regs : Fin 8 → Int
  mem : Fin 8192 → Int

/-- Read `registers[i]` for a decoded 3-bit register field. -/
def getReg (s : CoreState) (i : Int) : Int := s.regs (rIdx i)

/-- Effective-address computation shared by `lw` and `sw` (sim.py lines
164–172 and 180–189, simcache.py lines 243–251 and 296–305): sign-extend
the 7-bit immediate, add the base register, then fold into `[0, 8191]`
(`result & 8191` when above, `(result + 65536) & 8191` when negative). -/
def effAddr (imm0 : Int) (base : Int) : Int :=
  let imm := if imm0 > 63 then -128 + imm0 else imm0
  let result := imm + base
  if result > 8191 then Int.emod result 8192
  else if result < 0 then Int.emod (result + 65536) 8192
  else result

/-- Result of one iteration of the sim.py loop: the loop continues with a
new state, breaks at the self-jump halt convention — carrying the state
exactly as the iteration leaves it, i.e. with the line-80 pc mask
write-back already applied — or raises. -/
inductive StepRes where
  | next (s : CoreState)
  | halted (s : CoreState)
  | error

/-- Instruction fetch of sim.py (lines 78–81): mask the pc to its 13 least
significant bits when it exceeds 8191 (`pc > 8191` only — a negative pc is
not masked), then index memory Python-style. -/
def simFetch (pc0 : Int) : Option (Fin 8192) :=
  memIdx (if pc0 > 8191 then Int.emod pc0 8192 else pc0)

/-- Opcode-0 instructions of sim.py (lines 83–122): `jr` when the low four
bits are 8, otherwise `add`/`sub`/`or`/`and`/`slt` guarded by `dst == 0`;
an unlisted function code only advances the pc. -/
def simArith (s : CoreState) (pc : Int) (instruction : Int) : StepRes :=
  let srcA := getReg s (bitfield instruction 10 3)
  let srcB := getReg s (bitfield instruction 7 3)
  let dst := bitfield instruction 4 3
  if bitfield instruction 0 4 = 8 then
    StepRes.next { s with pc := srcA }
  else if dst = 0 then
    StepRes.next { s with pc := pc + 1 }
  else if bitfield instruction 0 4 = 0 then
    let result := srcA + srcB
    let result := if result < 0 then result + 65536
      else if result > 65535 then Int.emod result 65536 else result
    StepRes.next { s with regs := Function.update s.regs (rIdx dst) result, pc := pc + 1 }
  else if bitfield instruction 0 4 = 1 then
    let result := srcA - srcB
    let result := if result < 0 then result + 65536 else result
    StepRes.next { s with regs := Function.update s.regs (rIdx dst) result, pc := pc + 1 }
  else if bitfield instruction 0 4 = 2 then
    StepRes.next { s with regs := Function.update s.regs (rIdx dst) (Int.lor srcA srcB), pc := pc + 1 }
  else if bitfield instruction 0 4 = 3 then
    StepRes.next { s with regs := Function.update s.regs (rIdx dst) (Int.land srcA srcB), pc := pc + 1 }
  else if bitfield instruction 0 4 = 4 then
    StepRes.next { s with regs := Function.update s.regs (rIdx dst) (if srcA < srcB then 1 else 0), pc := pc + 1 }
  else
    StepRes.next { s with pc := pc + 1 }

/-- `addi`/`movi` of sim.py (lines 123–142): folds overflow, then
underflow, writes unless `dst == 0`. -/
def simAddi (s : CoreState) (pc : Int) (instruction : Int) : StepRes :=
  let src := bitfield instruction 10 3
  let dst := bitfield instruction 7 3
  let imm := bitfield instruction 0 7
  if dst = 0 then StepRes.next { s with pc := pc + 1 }
  else
    let imm := if imm > 63 then -128 + imm else imm
    let result := getReg s src + imm
    let result := if result > 65535 then Int.emod result 65536
      else if result < 0 then result + 65536 else result
    StepRes.next { s with regs := Function.update s.regs (rIdx dst) result, pc := pc + 1 }

/-- `j` of sim.py (lines 143–150): the self-jump halt convention is
checked against the pc as the iteration holds it — line 80 has already
written the 13-bit mask back — and the `break` leaves the state exactly
like that: registers and memory untouched, pc at the masked value. -/
def simJ (s : CoreState) (pc : Int) (instruction : Int) : StepRes :=
  let imm := bitfield instruction 0 13
  if imm = pc then StepRes.halted { s with pc := pc }
  else StepRes.next { s with pc := imm }

/-- `jal` of sim.py (lines 151–155): the link register is always
register 7. -/
def simJal (s : CoreState) (pc : Int) (instruction : Int) : StepRes :=
  let imm := bitfield instruction 0 13
  StepRes.next { s with regs := Function.update s.regs (rIdx 7) (Int.emod (pc + 1) 8192), pc := imm }

/-- `lw` of sim.py (lines 156–174): with `dst == 0` the load is elided
entirely; otherwise read memory at the folded effective address. -/
def simLw (s : CoreState) (pc : Int) (instruction : Int) : StepRes :=
  let addr := bitfield instruction 10 3
  let dst := bitfield instruction 7 3
  if dst = 0 then StepRes.next { s with pc := pc + 1 }
  else
    let result := effAddr (bitfield instruction 0 7) (getReg s addr)
    match memIdx result with
    | Option.none => StepRes.error
    | some a =>
      StepRes.next { s with regs := Function.update s.regs (rIdx dst) (s.mem a), pc := pc + 1 }

/-- `sw` of sim.py (lines 175–191): always writes the one word at the
folded effective address. -/
def simSw (s : CoreState) (pc : Int) (instruction : Int) : StepRes :=
  let addr := bitfield instruction 10 3
  let src := bitfield instruction 7 3
  let result := effAddr (bitfield instruction 0 7) (getReg s addr)
  match memIdx result with
  | Option.none => StepRes.error
  | some a =>
    StepRes.next { s with mem := Function.update s.mem a (getReg s src), pc := pc + 1 }

/-- `jeq` of sim.py (lines 192–202): relative branch on register
equality. -/
def simJeq (s : CoreState) (pc : Int) (instruction : Int) : StepRes :=
  let regA := bitfield instruction 10 3
  let regB := bitfield instruction 7 3
  let rel0 := bitfield instruction 0 7
  let rel_imm := if rel0 > 63 then -128 + rel0 else rel0
  if getReg s regA = getReg s regB then StepRes.next { s with pc := pc + 1 + rel_imm }
  else StepRes.next { s with pc := pc + 1 }

/-- `slti` of sim.py (lines 203–221): the immediate is reinterpreted as an
unsigned 16-bit value; a negative register value is folded up before the
unsigned comparison. -/
def simSlti (s : CoreState) (pc : Int) (instruction : Int) : StepRes :=
  let src := bitfield instruction 10 3
  let dst := bitfield instruction 7 3
  let imm0 := bitfield instruction 0 7
  if dst = 0 then StepRes.next { s with pc := pc + 1 }
  else
    let imm := if imm0 > 63 then (-128 + imm0) + 65536 else imm0
    let v := getReg s src
    let v := if v < 0 then 65536 + v else v
    StepRes.next { s with regs := Function.update s.regs (rIdx dst) (if v < imm then 1 else 0), pc := pc + 1 }

/-- One iteration of the sim.py main loop (lines 77–221): mask the pc
(writing the masked value back, line 80), fetch, dispatch on the 3-bit
opcode.  The final arm is unreachable because a 3-bit field is in
`[0, 8)`; Python would simply re-enter the loop with nothing changed. -/
def simStep (s : CoreState) : StepRes :=
  let pc := if s.pc > 8191 then Int.emod s.pc 8192 else s.pc
  match simFetch s.pc with
  | Option.none => StepRes.error
  | some f =>
    let instruction := s.mem f
    if bitfield instruction 13 3 = 0 then simArith s pc instruction
    else if bitfield instruction 13 3 = 1 then simAddi s pc instruction
    else if bitfield instruction 13 3 = 2 then simJ s pc instruction
    else if bitfield instruction 13 3 = 3 then simJal s pc instruction
    else if bitfield instruction 13 3 = 4 then simLw s pc instruction
    else if bitfield instruction 13 3 = 5 then simSw s pc instruction
    else if bitfield instruction 13 3 = 6 then simJeq s pc instruction
    else if bitfield instruction 13 3 = 7 then simSlti s pc instruction
    else StepRes.next { s with pc := pc }

/-- Outcome of running a simulator for a bounded number of iterations:
either still running, or stopped at the halt convention (carrying the
state as the loop left it — the halt iteration touches no register and no
memory word, but in sim.py its line-80 mask write-back may already have
changed the pc), or crashed with a Python exception. -/
inductive SimOutcome where
  | running (s : CoreState)
  | halted (s : CoreState)
  | crashed

/-- Run sim.py's main loop for at most `n` iterations. -/
def simRunN : Nat → CoreState → SimOutcome
  | 0, s => SimOutcome.running s
  | n + 1, s =>
    match simStep s with
    | StepRes.next s' => simRunN n s'
    | StepRes.halted t => SimOutcome.halted t
    | StepRes.error => SimOutcome.crashed

/-- The pc of a run outcome, if it did not crash. -/
def simOutPC : SimOutcome → Option Int
  | SimOutcome.running s => some s.pc
  | SimOutcome.halted s => some s.pc
  | SimOutcome.crashed => Option.none

/-- A register of a run outcome, if it did not crash. -/
def simOutReg (o : SimOutcome) (i : Int) : Option Int :=
  match o with
  | SimOutcome.running s => some (getReg s i)
  | SimOutcome.halted s => some (getReg s i)
  | SimOutcome.crashed => Option.none

/-- Whether the run reached the halt convention. -/
def simIsHalted : SimOutcome → Bool
  | SimOutcome.halted _ => true
  | _ => false

/-- Embedding of simcache.py `readjust` (lines 82–89): the function body
only reassigns its local parameter and falls off the end, returning `None`;
the caller's `result` is therefore never changed, and a call to `readjust`
has no effect at all. -/
def readjust (_result : Int) : Unit := ()

/-- simcache.py `calculate` (lines 91–96): derive the cache row and tag of
an address, `block = result // blocksize`, `row = block % num_rows`,
`tag = block // num_rows` (Python floor division and remainder). -/
def calculate (result blocksize num_rows : Int) : Int × Int :=
  let block := Int.fdiv result blocksize
  (Int.fmod block num_rows, Int.fdiv block num_rows)

/-- simcache.py `evict` (lines 98–103): when the row is at its
associativity capacity, remove the entry at index 0 (the head value, whose
first occurrence is index 0), then append the new tag.  (The Python code
would raise `IndexError` if this ran with `assoc = 0` on an empty row, but
that combination is unreachable: a zero associativity already crashes the
row-count division at configuration time.) -/
def evict (cache_row : List Int) (assoc : Int) (tag : Int) : List Int :=
  (if (cache_row.length : Int) = assoc then cache_row.tail else cache_row) ++ [tag]

/-- The per-row access logic inlined at each `lw`/`sw` site of simcache.py
(e.g. lines 258–264): a resident tag is removed and re-appended (hit
promotes to most-recently-used tail), an absent tag goes through `evict`
(miss).  Returns the new row and whether the access hit. -/
def accessSet (cache_row : List Int) (assoc tag : Int) : List Int × Bool :=
  if tag ∈ cache_row then (cache_row.erase tag ++ [tag], true)
  else (evict cache_row assoc tag, false)

/-- Static parameters of one cache level, as computed when the `--cache`
argument is parsed (simcache.py lines 119–148): `num_rows` is
`size // (blocksize * assoc)`. -/
structure CacheParams where
  size : Int
  assoc : Int
  blocksize : Int
  num_rows : Int
deriving DecidableEq

/-- One trace line as produced by `print_log_entry`: cache name, status,
the pc of the access instruction, the effective address, and the row. -/
structure LogEntry where
  cache : String
  status : String
  pc : Int
  addr : Int
  row : Int
deriving DecidableEq

/-- One cache access against a level's table (the inlined pattern of
simcache.py lines 256–264 etc.): compute row and tag with `calculate`,
run the hit/miss logic on `table[row]`, store the updated row back.
Returns the new table, the hit flag and the row index.  (Row indexing is
the Python `L1cache[row]`, defined for `0 ≤ row < num_rows`, which holds
whenever the configured parameters are positive.) -/
def accessCache (p : CacheParams) (table : List (List Int)) (result : Int) :
    List (List Int) × Bool × Int :=
  let rt := calculate result p.blocksize p.num_rows
  let st := accessSet (table.getD rt.1.toNat []) p.assoc rt.2
  (table.set rt.1.toNat st.1, st.2, rt.1)

/-- The two-level `lw` path of simcache.py (lines 268–289): access L1 and
log it; only on an L1 MISS access and log L2. -/
def load2 (p1 p2 : CacheParams) (d1 d2 : List (List Int)) (pc result : Int) :
    List (List Int) × List (List Int) × List LogEntry :=
  let r1 := accessCache p1 d1 result
  let e1 : LogEntry := ⟨"L1", if r1.2.1 then "HIT" else "MISS", pc, result, r1.2.2⟩
  if r1.2.1 then (r1.1, d2, [e1])
  else
    let r2 := accessCache p2 d2 result
    (r1.1, r2.1, [e1, ⟨"L2", if r2.2.1 then "HIT" else "MISS", pc, result, r2.2.2⟩])

/-- The two-level `sw` path of simcache.py (lines 319–336): update both
levels unconditionally, log `SW` for each. -/
def store2 (p1 p2 : CacheParams) (d1 d2 : List (List Int)) (pc result : Int) :
    List (List Int) × List (List Int) × List LogEntry :=
  let r1 := accessCache p1 d1 result
  let r2 := accessCache p2 d2 result
  (r1.1, r2.1, [⟨"L1", "SW", pc, result, r1.2.2⟩, ⟨"L2", "SW", pc, result, r2.2.2⟩])

/-- A parsed `--cache` argument: one level or two. -/
inductive CacheSetup where
  | one (p : CacheParams)
  | two (p1 p2 : CacheParams)
deriving DecidableEq

/-- Row count of one level, `size // (blocksize * assoc)` (simcache.py
lines 125, 138–139); Python raises `ZeroDivisionError` when
`blocksize * assoc` is zero. -/
def mkRows (size assoc blocksize : Int) : Option Int :=
  if blocksize * assoc = 0 then Option.none else some (Int.fdiv size (blocksize * assoc))

/-- Parsing of a present `--cache` argument (simcache.py lines 119–150):
three comma-separated values configure L1, six configure L1 and L2, any
other count raises `Exception("Invalid cache config")`.  No divisibility
check is performed — the row-count floor division silently truncates. -/
def configCache (parts : List Int) : Except String CacheSetup :=
  match parts with
  | [s1, a1, b1] =>
    match mkRows s1 a1 b1 with
    | some r1 => Except.ok (CacheSetup.one ⟨s1, a1, b1, r1⟩)
    | Option.none => Except.error "ZeroDivisionError"
  | [s1, a1, b1, s2, a2, b2] =>
    match mkRows s1 a1 b1, mkRows s2 a2 b2 with
    | some r1, some r2 => Except.ok (CacheSetup.two ⟨s1, a1, b1, r1⟩ ⟨s2, a2, b2, r2⟩)
    | _, _ => Except.error "ZeroDivisionError"
  | _ => Except.error "Invalid cache config"

/-- State of simcache.py's main loop: the architectural core state plus the
two mutable cache tables (empty lists when a level is not configured). -/
structure SCState where
  core : CoreState
  L1 : List (List Int)
  L2 : List (List Int)

/-- Result of one iteration of the simcache.py loop; `next` also carries
the trace lines printed during the iteration. -/
inductive SCRes where
  | next (s : SCState) (log : List LogEntry)
  | halted
  | error

/-- Instruction fetch of simcache.py (lines 164–169): when the pc exceeds
8191 the masked value is used for the fetch only — it is *not* written
back into `pc`. -/
def scFetch (pc0 : Int) : Option (Fin 8192) :=
  if pc0 > 8191 then memIdx (Int.emod pc0 8192) else memIdx pc0

/-- Opcode-0 instructions of simcache.py (lines 171–206).  Identical to
sim.py except that the `add`/`sub` results pass through `readjust`, which
returns `None` and leaves `result` unfolded, and the pc is the raw one. -/
def scArith (st : SCState) (instruction : Int) : SCRes :=
  let s := st.core
  let srcA := getReg s (bitfield instruction 10 3)
  let srcB := getReg s (bitfield instruction 7 3)
  let dst := bitfield instruction 4 3
  if bitfield instruction 0 4 = 8 then
    SCRes.next { st with core := { s with pc := srcA } } []
  else if dst = 0 then
    SCRes.next { st with core := { s with pc := s.pc + 1 } } []
  else if bitfield instruction 0 4 = 0 then
    let result := srcA + srcB
    let _u := readjust result
    SCRes.next { st with core := { s with regs := Function.update s.regs (rIdx dst) result, pc := s.pc + 1 } } []
  else if bitfield instruction 0 4 = 1 then
    let result := srcA - srcB
    let _u := readjust result
    SCRes.next { st with core := { s with regs := Function.update s.regs (rIdx dst) result, pc := s.pc + 1 } } []
  else if bitfield instruction 0 4 = 2 then
    SCRes.next { st with core := { s with regs := Function.update s.regs (rIdx dst) (Int.lor srcA srcB), pc := s.pc + 1 } } []
  else if bitfield instruction 0 4 = 3 then
    SCRes.next { st with core := { s with regs := Function.update s.regs (rIdx dst) (Int.land srcA srcB), pc := s.pc + 1 } } []
  else if bitfield instruction 0 4 = 4 then
    SCRes.next { st with core := { s with regs := Function.update s.regs (rIdx dst) (if srcA < srcB then 1 else 0), pc := s.pc + 1 } } []
  else
    SCRes.next { st with core := { s with pc := s.pc + 1 } } []

/-- `addi`/`movi` of simcache.py (lines 207–221): the result goes through
the ineffective `readjust`, so it is stored unfolded. -/
def scAddi (st : SCState) (instruction : Int) : SCRes :=
  let s := st.core
  let src := bitfield instruction 10 3
  let dst := bitfield instruction 7 3
  let imm := bitfield instruction 0 7
  if dst = 0 then SCRes.next { st with core := { s with pc := s.pc + 1 } } []
  else
    let imm := if imm > 63 then -128 + imm else imm
    let result := getReg s src + imm
    let _u := readjust result
    SCRes.next { st with core := { s with regs := Function.update s.regs (rIdx dst) result, pc := s.pc + 1 } } []

/-- `j` of simcache.py (lines 222–229): the halt comparison uses the raw,
unmasked pc. -/
def scJ (st : SCState) (instruction : Int) : SCRes :=
  let s := st.core
  let imm := bitfield instruction 0 13
  if imm = s.pc then SCRes.halted else SCRes.next { st with core := { s with pc := imm } } []

/-- `jal` of simcache.py (lines 230–234). -/
def scJal (st : SCState) (instruction : Int) : SCRes :=
  let s := st.core
  let imm := bitfield instruction 0 13
  SCRes.next { st with core := { s with regs := Function.update s.regs (rIdx 7) (Int.emod (s.pc + 1) 8192), pc := imm } } []

/-- `lw` of simcache.py (lines 235–290): after the architectural load, the
cache block runs `len(parts)` — a `NameError` when `--cache` was absent —
and otherwise updates and logs the configured level(s). -/
def scLw (cfg : Option CacheSetup) (st : SCState) (instruction : Int) : SCRes :=
  let s := st.core
  let addr := bitfield instruction 10 3
  let dst := bitfield instruction 7 3
  if dst = 0 then SCRes.next { st with core := { s with pc := s.pc + 1 } } []
  else
    let result := effAddr (bitfield instruction 0 7) (getReg s addr)
    match memIdx result with
    | Option.none => SCRes.error
    | some a =>
      let core' : CoreState :=
        { s with regs := Function.update s.regs (rIdx dst) (s.mem a), pc := s.pc + 1 }
      match cfg with
      | Option.none => SCRes.error
      | some (CacheSetup.one p) =>
        let r := accessCache p st.L1 result
        SCRes.next { st with core := core', L1 := r.1 }
          [⟨"L1", if r.2.1 then "HIT" else "MISS", s.pc, result, r.2.2⟩]
      | some (CacheSetup.two p1 p2) =>
        let r := load2 p1 p2 st.L1 st.L2 s.pc result
        SCRes.next { st with core := core', L1 := r.1, L2 := r.2.1 } r.2.2

/-- `sw` of simcache.py (lines 291–337): after the architectural store,
the cache block runs `len(parts)` — a `NameError` when `--cache` was
absent — and otherwise updates and logs the configured level(s). -/
def scSw (cfg : Option CacheSetup) (st : SCState) (instruction : Int) : SCRes :=
  let s := st.core
  let addr := bitfield instruction 10 3
  let src := bitfield instruction 7 3
  let result := effAddr (bitfield instruction 0 7) (getReg s addr)
  match memIdx result with
  | Option.none => SCRes.error
  | some a =>
    let core' : CoreState :=
      { s with mem := Function.update s.mem a (getReg s src), pc := s.pc + 1 }
    match cfg with
    | Option.none => SCRes.error
    | some (CacheSetup.one p) =>
      let r := accessCache p st.L1 result
      SCRes.next { st with core := core', L1 := r.1 } [⟨"L1", "SW", s.pc, result, r.2.2⟩]
    | some (CacheSetup.two p1 p2) =>
      let r := store2 p1 p2 st.L1 st.L2 s.pc result
      SCRes.next { st with core := core', L1 := r.1, L2 := r.2.1 } r.2.2

/-- `jeq` of simcache.py (lines 338–348). -/
def scJeq (st : SCState) (instruction : Int) : SCRes :=
  let s := st.core
  let regA := bitfield instruction 10 3
  let regB := bitfield instruction 7 3
  let rel0 := bitfield instruction 0 7
  let rel_imm := if rel0 > 63 then -128 + rel0 else rel0
  if getReg s regA = getReg s regB then
    SCRes.next { st with core := { s with pc := s.pc + 1 + rel_imm } } []
  else SCRes.next { st with core := { s with pc := s.pc + 1 } } []

/-- `slti` of simcache.py (lines 349–367). -/
def scSlti (st : SCState) (instruction : Int) : SCRes :=
  let s := st.core
  let src := bitfield instruction 10 3
  let dst := bitfield instruction 7 3
  let imm0 := bitfield instruction 0 7
  if dst = 0 then SCRes.next { st with core := { s with pc := s.pc + 1 } } []
  else
    let imm := if imm0 > 63 then (-128 + imm0) + 65536 else imm0
    let v := getReg s src
    let v := if v < 0 then 65536 + v else v
    SCRes.next { st with core := { s with regs := Function.update s.regs (rIdx dst) (if v < imm then 1 else 0), pc := s.pc + 1 } } []

/-- One iteration of the simcache.py main loop (lines 163–367).  The
configuration is `Option.none` when `--cache` was absent.  Unlike sim.py,
the masked pc is used for the fetch only and is never written back. -/
def simcacheStep (cfg : Option CacheSetup) (st : SCState) : SCRes :=
  let s := st.core
  match scFetch s.pc with
  | Option.none => SCRes.error
  | some f =>
    let instruction := s.mem f
    if bitfield instruction 13 3 = 0 then scArith st instruction
    else if bitfield instruction 13 3 = 1 then scAddi st instruction
    else if bitfield instruction 13 3 = 2 then scJ st instruction
    else if bitfield instruction 13 3 = 3 then scJal st instruction
    else if bitfield instruction 13 3 = 4 then scLw cfg st instruction
    else if bitfield instruction 13 3 = 5 then scSw cfg st instruction
    else if bitfield instruction 13 3 = 6 then scJeq st instruction
    else if bitfield instruction 13 3 = 7 then scSlti st instruction
    else SCRes.next st []

/-- Outcome of running simcache.py for a bounded number of iterations. -/
inductive SCOutcome where
  | running (s : SCState)
  | halted (s : SCState)
  | crashed

/-- Run simcache.py's main loop for at most `n` iterations. -/
def scRunN (cfg : Option CacheSetup) : Nat → SCState → SCOutcome
  | 0, st => SCOutcome.running st
  | n + 1, st =>
    match simcacheStep cfg st with
    | SCRes.next st' _ => scRunN cfg n st'
    | SCRes.halted => SCOutcome.halted st
    | SCRes.error => SCOutcome.crashed

/-- A register of a simcache run outcome, if it did not crash. -/
def scOutReg (o : SCOutcome) (i : Int) : Option Int :=
  match o with
  | SCOutcome.running st => some (getReg st.core i)
  | SCOutcome.halted st => some (getReg st.core i)
  | SCOutcome.crashed => Option.none

/-- The pc of a simcache run outcome, if it did not crash. -/
def scOutPC : SCOutcome → Option Int
  | SCOutcome.running st => some st.core.pc
  | SCOutcome.halted st => some st.core.pc
  | SCOutcome.crashed => Option.none

/-- Whether the simcache run crashed with a Python exception. -/
def scIsCrashed : SCOutcome → Bool
  | SCOutcome.crashed => true
  | _ => false

/-- The all-zero register file both simulators start from. -/
def regs0 : Fin 8 → Int := fun _ => 0

/-- Program A: `addi $1, $0, 1` then `sub $2, $0, $1` (machine words 8321
and 161), rest of memory zero. -/
def memA : Fin 8192 → Int :=
  fun a => if a.val = 0 then 8321 else if a.val = 1 then 161 else 0

/-- Initial sim.py state for program A. -/
def initA : CoreState := ⟨0, regs0, memA⟩

/-- Initial simcache.py state for program A. -/
def scInitA : SCState := ⟨initA, [], []⟩

/-- Program B: `sw $0, $0, 0` then the self-jump `j 1` (machine words
40960 and 16385). -/
def memB : Fin 8192 → Int :=
  fun a => if a.val = 0 then 40960 else if a.val = 1 then 16385 else 0

/-- Initial sim.py state for program B. -/
def initB : CoreState := ⟨0, regs0, memB⟩

/-- Initial simcache.py state for program B. -/
def scInitB : SCState := ⟨initB, [], []⟩

/-- Program C: a single `jeq $0, $0, -2` (machine word 49278). -/
def memC : Fin 8192 → Int := fun a => if a.val = 0 then 49278 else 0

/-- Initial sim.py state for program C. -/
def initC : CoreState := ⟨0, regs0, memC⟩

/-- Initial simcache.py state for program C. -/
def scInitC : SCState := ⟨initC, [], []⟩

/-- C1: the claim says the architectural state produced by simcache.py
always equals the state produced by sim.py on the same program.  It does
not: after `addi $1, $0, 1; sub $2, $0, $1` (two steps), sim.py folds the
subtraction underflow to 65535 while simcache.py stores the raw `-1`,
because its `readjust` helper returns `None` without changing the caller's
`result`.  This theorem evaluates both cores on that program. -/
theorem sim_simcache_architectural_divergence :
    simOutReg (simRunN 2 initA) 2 = some 65535 ∧
      scOutReg (scRunN Option.none 2 scInitA) 2 = some (-1) :=
  ⟨by decide, by decide⟩

/-- C2: the claim says `add`/`sub`/`addi` results are folded into
`[0, 65535]` in both simulators.  In simcache.py they are not: the same
two-step program leaves `-1` in register 2, outside `[0, 65535]`, because
`readjust` has no effect. -/
theorem simcache_sub_result_not_folded :
    scOutReg (scRunN Option.none 2 scInitA) 2 = some (-1) ∧ ((-1 : Int) < 0) :=
  ⟨by decide, by decide⟩

/-- C3: the claim says simcache.py with no `--cache` argument runs every
sim.py-halting program to completion with `lw`/`sw` executing normally.
It does not: program B halts under sim.py after two steps, but simcache.py
crashes on its very first `sw`, because the `sw` handler evaluates
`len(parts)` and `parts` is only assigned when `--cache` is present
(`NameError`). -/
theorem simcache_nocache_crashes_on_sw :
    simIsHalted (simRunN 2 initB) = true ∧
      scIsCrashed (scRunN Option.none 1 scInitB) = true :=
  ⟨by decide, by decide⟩

/-- C4 counterexample: the claim says the pc held by the core lies in
`[0, 8191]` at every step boundary.  After one step of program C
(`jeq $0, $0, -2` at pc 0, taken because `$0 = $0`), both cores hold
pc = `-1`, which is outside `[0, 8191]`: the 13-bit mask is only applied
when `pc > 8191` and never to negative values. -/
theorem pc_negative_after_backward_jeq :
    simOutPC (simRunN 1 initC) = some (-1) ∧
      scOutPC (scRunN Option.none 1 scInitC) = some (-1) ∧
      ¬ (0 ≤ (-1 : Int) ∧ (-1 : Int) ≤ 8191) :=
  ⟨by decide, by decide, by decide⟩

/-- C4 amended: the pc at a step boundary may lie outside `[0, 8191]`; what
holds instead is that the memory index used to fetch the next instruction
always equals `pc mod 8192` as long as `pc ≥ -8192` (values above 8191 are
masked explicitly, negative values reach memory through Python's negative
indexing), and a pc below `-8192` makes the fetch raise `IndexError`, in
both simulators. -/
theorem fetch_index_mod8192 (pc0 : Int) :
    (-8192 ≤ pc0 → simFetch pc0 = some (idx13 pc0) ∧ scFetch pc0 = some (idx13 pc0)) ∧
      (pc0 < -8192 → simFetch pc0 = Option.none ∧ scFetch pc0 = Option.none) := by
  constructor
  · intro hge
    by_cases hgt : pc0 > 8191
    · have hmm : Int.emod (Int.emod pc0 8192) 8192 = Int.emod pc0 8192 :=
        Int.emod_emod_of_dvd pc0 dvd_rfl
      have hx : idx13 (Int.emod pc0 8192) = idx13 pc0 := by
        simp [idx13, hmm]
      have h1 : 0 ≤ Int.emod pc0 8192 := Int.emod_nonneg _ (by norm_num)
      have h2 : Int.emod pc0 8192 < 8192 := Int.emod_lt_of_pos _ (by norm_num)
      constructor
      · unfold simFetch memIdx
        rw [if_pos hgt, if_pos ⟨by omega, h2⟩, hx]
      · unfold scFetch memIdx
        rw [if_pos hgt, if_pos ⟨by omega, h2⟩, hx]
    · constructor
      · unfold simFetch memIdx
        rw [if_neg hgt, if_pos ⟨hge, by omega⟩]
      · unfold scFetch memIdx
        rw [if_neg hgt, if_pos ⟨hge, by omega⟩]
  · intro hlt
    have hgt : ¬ pc0 > 8191 := by omega
    constructor
    · unfold simFetch memIdx
      rw [if_neg hgt, if_neg (by omega)]
    · unfold scFetch memIdx
      rw [if_neg hgt, if_neg (by omega)]

/-- Witness for `fetch_index_mod8192` at the concrete pc `-1`. -/
theorem fetch_index_mod8192_witness :
    simFetch (-1) = some (idx13 (-1)) ∧ scFetch (-1) = some (idx13 (-1)) :=
  (fetch_index_mod8192 (-1)).1 (by norm_num)

/-- C5 counterexample: the claim says a non-divisible
size/associativity/blockSize combination raises
`InvalidCacheConfiguration`.  It does not: `--cache 7,2,2` has
`7 mod (2*2) = 3 ≠ 0`, yet configuration succeeds with the truncated row
count `7 // 4 = 1` and the run starts. -/
theorem nondivisible_config_accepted :
    configCache [7, 2, 2] = Except.ok (CacheSetup.one ⟨7, 2, 2, 1⟩) ∧
      Int.fmod 7 (2 * 2) ≠ 0 :=
  ⟨rfl, by decide⟩

/-- C5 amended: parsing a present `--cache` argument raises the fatal
`Invalid cache config` error if and only if the comma-separated argument
count is not 3 and not 6 (absence meaning no cache); a non-divisible
size/associativity/blockSize combination is not rejected — the row count
is truncated by the floor division instead. -/
theorem invalid_config_iff_bad_count (parts : List Int) :
    configCache parts = Except.error "Invalid cache config" ↔
      (parts.length ≠ 3 ∧ parts.length ≠ 6) := by
  rcases parts with _ | ⟨a, _ | ⟨b, _ | ⟨c, _ | ⟨d, _ | ⟨e, _ | ⟨g, _ | ⟨k, t⟩⟩⟩⟩⟩⟩⟩
  · simp [configCache]
  · simp [configCache]
  · simp [configCache]
  · constructor
    · intro hcf
      exfalso
      unfold configCache at hcf
      rcases hmk : mkRows a b c with _ | r <;> simp [configCache, hmk] at hcf
    · intro hlen
      simp at hlen
  · simp [configCache]
  · simp [configCache]
  · constructor
    · intro hcf
      exfalso
      unfold configCache at hcf
      rcases hmk1 : mkRows a b c with _ | r1 <;>
        rcases hmk2 : mkRows d e g with _ | r2 <;>
        simp [configCache, hmk1, hmk2] at hcf
    · intro hlen
      simp at hlen
  · constructor
    · intro _
      constructor <;> simp
    · intro _
      simp [configCache]

/-- Witness for `invalid_config_iff_bad_count` at a concrete four-element
argument list. -/
theorem invalid_config_iff_bad_count_witness :
    configCache [7, 2, 2, 1] = Except.error "Invalid cache config" :=
  (invalid_config_iff_bad_count [7, 2, 2, 1]).2 (by decide)

/-- Fold a sequence of tag accesses over a single cache row, exactly as
the main loop applies the hit/miss logic access by access. -/
def runSet (assoc : Int) : List Int → List Int → List Int
  | s, [] => s
  | s, t :: ts => runSet assoc (accessSet s assoc t).1 ts

/-- Under a workload of misses only, a row behaves as a bounded queue:
folding accesses whose tags are fresh (never resident, pairwise distinct)
appends them at the tail and drops from the head exactly when the row is
at its associativity capacity. -/
theorem runSet_miss_drop (assoc : Int) (hA : 0 < assoc) :
    ∀ (us s : List Int), (s.length : Int) ≤ assoc → (∀ u ∈ us, u ∉ s) → us.Nodup →
      runSet assoc s us = List.drop (s.length + us.length - assoc.toNat) (s ++ us) := by
  intro us
  induction us with
  | nil =>
    intro s hlen _ _
    have h0 : s.length + ([] : List Int).length - assoc.toNat = 0 := by
      simp
      omega
    rw [h0]
    simp [runSet]
  | cons t ts ih =>
    intro s hlen hmiss hnd
    have htm : t ∉ s := hmiss t (List.mem_cons_self t ts)
    have hstep : runSet assoc s (t :: ts) = runSet assoc (evict s assoc t) ts := by
      simp [runSet, accessSet, htm]
    rw [hstep]
    by_cases hfull : (s.length : Int) = assoc
    · rcases s with _ | ⟨a0, s0⟩
      · exfalso
        simp at hfull
        omega
      · have hev : evict (a0 :: s0) assoc t = s0 ++ [t] := by
          unfold evict
          rw [if_pos hfull]
          rfl
        rw [hev]
        have hlen' : ((s0 ++ [t]).length : Int) ≤ assoc := by
          simp at hfull ⊢
          omega
        have hmiss' : ∀ u ∈ ts, u ∉ s0 ++ [t] := by
          intro u hu
          have h1 : u ∉ a0 :: s0 := hmiss u (List.mem_cons_of_mem _ hu)
          have h2 : u ≠ t := by
            intro he
            subst he
            exact (List.nodup_cons.mp hnd).1 hu
          simp at h1 ⊢
          tauto
        rw [ih (s0 ++ [t]) hlen' hmiss' (List.nodup_cons.mp hnd).2]
        have hL : (s0 ++ [t]).length + ts.length - assoc.toNat = ts.length := by
          simp at hfull ⊢
          omega
        have hR : (a0 :: s0).length + (t :: ts).length - assoc.toNat = ts.length + 1 := by
          simp at hfull ⊢
          omega
        rw [hL, hR, List.append_assoc, List.singleton_append, List.cons_append,
          List.drop_succ_cons]
    · have hev : evict s assoc t = s ++ [t] := by
        unfold evict
        rw [if_neg hfull]
      rw [hev]
      have hlen' : ((s ++ [t]).length : Int) ≤ assoc := by
        simp
        omega
      have hmiss' : ∀ u ∈ ts, u ∉ s ++ [t] := by
        intro u hu
        have h1 : u ∉ s := hmiss u (List.mem_cons_of_mem _ hu)
        have h2 : u ≠ t := by
          intro he
          subst he
          exact (List.nodup_cons.mp hnd).1 hu
        simp
        tauto
      rw [ih (s ++ [t]) hlen' hmiss' (List.nodup_cons.mp hnd).2]
      have hK : (s ++ [t]).length + ts.length - assoc.toNat
          = s.length + (t :: ts).length - assoc.toNat := by
        simp
        omega
      rw [hK, List.append_assoc, List.singleton_append]

/-- C6: the recency discipline of a Tag Set.  (a) A hit removes the tag
and re-appends it at the most-recently-used tail.  (b) A miss on a row at
its associativity capacity drops exactly the head (least-recently-used
entry) before appending.  (c) Consequently, accessing `N+1` distinct fresh
tags starting from an empty associativity-`N` row evicts exactly the first
tag inserted: the final row is the tail of the access sequence.  (d) After
a hit promotes `t`, a subsequent workload of fresh tags cannot evict `t`
before every other tag that was resident at the promotion: if `t` is gone,
all the others are gone too. -/
theorem cache_recency_laws (assoc : Int) (hA : 0 < assoc) :
    (∀ (s : List Int) (tag : Int), tag ∈ s →
        accessSet s assoc tag = (s.erase tag ++ [tag], true)) ∧
    (∀ (s : List Int) (tag : Int), tag ∉ s → (s.length : Int) = assoc →
        accessSet s assoc tag = (s.tail ++ [tag], false)) ∧
    (∀ ts : List Int, ts.Nodup → (ts.length : Int) = assoc + 1 →
        runSet assoc [] ts = ts.tail) ∧
    (∀ (s : List Int) (t : Int) (us : List Int), t ∈ s → (s.length : Int) ≤ assoc →
        us.Nodup → (∀ u ∈ us, u ∉ s) →
        t ∉ runSet assoc (accessSet s assoc t).1 us →
        ∀ x ∈ s, x ≠ t → x ∉ runSet assoc (accessSet s assoc t).1 us) := by
  refine ⟨?_, ?_, ?_, ?_⟩
  · intro s tag htag
    simp [accessSet, htag]
  · intro s tag htag hfull
    simp [accessSet, evict, htag, hfull]
  · intro ts hnd hlen
    rw [runSet_miss_drop assoc hA ts [] (by simp; omega) (by simp) hnd]
    have h1 : ([] : List Int).length + ts.length - assoc.toNat = 1 := by
      simp
      omega
    rw [h1]
    simp [List.drop_one]
  · intro s t us hts hlen hund humiss hevicted x hxs hxt
    have hacc : (accessSet s assoc t).1 = s.erase t ++ [t] := by
      simp [accessSet, hts]
    rw [hacc] at hevicted ⊢
    have hlenE : ((s.erase t ++ [t]).length : Int) ≤ assoc := by
      have he := List.length_erase_of_mem hts
      have hpos : 0 < s.length := List.length_pos.mpr (List.ne_nil_of_mem hts)
      simp [he]
      omega
    have hmiss' : ∀ u ∈ us, u ∉ s.erase t ++ [t] := by
      intro u hu
      have h1 : u ∉ s := humiss u hu
      simp
      constructor
      · intro hc
        exact h1 (List.mem_of_mem_erase hc)
      · intro he
        subst he
        exact h1 hts
    rw [runSet_miss_drop assoc hA us (s.erase t ++ [t]) hlenE hmiss' hund] at hevicted ⊢
    set k := (s.erase t ++ [t]).length + us.length - assoc.toNat with hk
    by_cases hkle : k ≤ (s.erase t).length
    · exfalso
      apply hevicted
      rw [List.append_assoc, List.drop_append_of_le_length hkle]
      simp
    · have hge : (s.erase t ++ [t]).length ≤ k := by
        simp at hkle ⊢
        omega
      intro hxin
      have hkeq : k = (s.erase t ++ [t]).length + (k - (s.erase t ++ [t]).length) := by
        omega
      rw [hkeq, List.drop_append] at hxin
      exact humiss x (List.mem_of_mem_drop hxin) hxs

/-- Witness for `cache_recency_laws` at associativity 2: a hit on `[5, 9]`
promotes 5 to the tail; a fresh tag on the full row `[1, 2]` drops the
head; three distinct fresh tags on an empty row leave `[2, 3]`; and after
promoting 1 in `[1, 2]`, once 1 has been evicted by the fresh tags 3 and 4
the other original resident 2 is gone as well. -/
theorem cache_recency_laws_witness :
    accessSet [5, 9] 2 5 = ([9, 5], true) ∧
      accessSet [1, 2] 2 3 = ([2, 3], false) ∧
      runSet 2 [] [1, 2, 3] = [2, 3] ∧
      (2 : Int) ∉ runSet 2 (accessSet [1, 2] 2 1).1 [3, 4] :=
  ⟨by decide, by decide, by decide,
    (cache_recency_laws 2 (by decide)).2.2.2 [1, 2] 1 [3, 4] (by decide) (by decide)
      (by decide) (by decide) (by decide) 2 (by decide) (by decide)⟩

/-- Decoded bitfields are nonnegative. -/
theorem bitfield_nonneg (x : Int) (sh w : Nat) : 0 ≤ bitfield x sh w :=
  Int.ediv_nonneg (Int.emod_nonneg x (by positivity)) (by positivity)

/-- Decoded bitfields are below `2 ^ width`. -/
theorem bitfield_lt (x : Int) (sh w : Nat) : bitfield x sh w < 2 ^ w := by
  unfold bitfield
  have h1 : Int.emod x (2 ^ (sh + w)) < 2 ^ (sh + w) := Int.emod_lt_of_pos x (by positivity)
  have h2 : (0 : Int) < 2 ^ sh := by positivity
  refine Int.ediv_lt_of_lt_mul h2 ?_
  calc Int.emod x (2 ^ (sh + w)) < 2 ^ (sh + w) := h1
    _ = 2 ^ w * 2 ^ sh := by rw [pow_add]; ring

/-- A 3-bit field is below 8. -/
theorem bitfield_lt8 (x : Int) (sh : Nat) : bitfield x sh 3 < 8 := by
  have h := bitfield_lt x sh 3
  norm_num at h
  exact h

/-- A nonzero bitfield is at least 1. -/
theorem bitfield_one_le {x : Int} {sh w : Nat} (h : ¬ bitfield x sh w = 0) :
    1 ≤ bitfield x sh w := by
  have h0 := bitfield_nonneg x sh w
  omega

/-- Register 0 is distinct from any register with index in `[1, 8)`. -/
theorem rIdx_ne_zero {d : Int} (h1 : 1 ≤ d) (h2 : d < 8) : rIdx 0 ≠ rIdx d := by
  simp [rIdx, Fin.ext_iff]
  omega

/-- Register-file frame of the opcode-0 helper. -/
theorem simArith_regs (s : CoreState) (pc i : Int) (s' : CoreState)
    (h : simArith s pc i = StepRes.next s') :
    s'.regs = s.regs ∨
      ∃ d v, (1 ≤ d ∧ d < 8) ∧ s'.regs = Function.update s.regs (rIdx d) v := by
  simp only [simArith] at h
  repeat' split at h
  all_goals
    first
      | exact StepRes.noConfusion h
      | (injection h with h2; subst h2; exact Or.inl rfl)
      | (injection h with h2; subst h2;
         refine Or.inr ⟨_, _, ⟨?_, ?_⟩, rfl⟩ <;>
           first
             | decide
             | exact bitfield_one_le (by assumption)
             | exact bitfield_lt8 _ _)

/-- Register-file frame of the `addi` helper. -/
theorem simAddi_regs (s : CoreState) (pc i : Int) (s' : CoreState)
    (h : simAddi s pc i = StepRes.next s') :
    s'.regs = s.regs ∨
      ∃ d v, (1 ≤ d ∧ d < 8) ∧ s'.regs = Function.update s.regs (rIdx d) v := by
  simp only [simAddi] at h
  repeat' split at h
  all_goals
    first
      | exact StepRes.noConfusion h
      | (injection h with h2; subst h2; exact Or.inl rfl)
      | (injection h with h2; subst h2;
         refine Or.inr ⟨_, _, ⟨?_, ?_⟩, rfl⟩ <;>
           first
             | decide
             | exact bitfield_one_le (by assumption)
             | exact bitfield_lt8 _ _)

/-- Register-file frame of the `j` helper. -/
theorem simJ_regs (s : CoreState) (pc i : Int) (s' : CoreState)
    (h : simJ s pc i = StepRes.next s') :
    s'.regs = s.regs ∨
      ∃ d v, (1 ≤ d ∧ d < 8) ∧ s'.regs = Function.update s.regs (rIdx d) v := by
  simp only [simJ] at h
  repeat' split at h
  all_goals
    first
      | exact StepRes.noConfusion h
      | (injection h with h2; subst h2; exact Or.inl rfl)

/-- Register-file frame of the `jal` helper: only register 7 is written. -/
theorem simJal_regs (s : CoreState) (pc i : Int) (s' : CoreState)
    (h : simJal s pc i = StepRes.next s') :
    s'.regs = s.regs ∨
      ∃ d v, (1 ≤ d ∧ d < 8) ∧ s'.regs = Function.update s.regs (rIdx d) v := by
  simp only [simJal] at h
  injection h with h2
  subst h2
  exact Or.inr ⟨7, _, ⟨by decide, by decide⟩, rfl⟩

/-- Register-file frame of the `lw` helper. -/
theorem simLw_regs (s : CoreState) (pc i : Int) (s' : CoreState)
    (h : simLw s pc i = StepRes.next s') :
    s'.regs = s.regs ∨
      ∃ d v, (1 ≤ d ∧ d < 8) ∧ s'.regs = Function.update s.regs (rIdx d) v := by
  simp only [simLw] at h
  repeat' split at h
  all_goals
    first
      | exact StepRes.noConfusion h
      | (injection h with h2; subst h2; exact Or.inl rfl)
      | (injection h with h2; subst h2;
         refine Or.inr ⟨_, _, ⟨?_, ?_⟩, rfl⟩ <;>
           first
             | decide
             | exact bitfield_one_le (by assumption)
             | exact bitfield_lt8 _ _)

/-- Register-file frame of the `sw` helper: no register is written. -/
theorem simSw_regs (s : CoreState) (pc i : Int) (s' : CoreState)
    (h : simSw s pc i = StepRes.next s') :
    s'.regs = s.regs ∨
      ∃ d v, (1 ≤ d ∧ d < 8) ∧ s'.regs = Function.update s.regs (rIdx d) v := by
  simp only [simSw] at h
  repeat' split at h
  all_goals
    first
      | exact StepRes.noConfusion h
      | (injection h with h2; subst h2; exact Or.inl rfl)

/-- Register-file frame of the `jeq` helper. -/
theorem simJeq_regs (s : CoreState) (pc i : Int) (s' : CoreState)
    (h : simJeq s pc i = StepRes.next s') :
    s'.regs = s.regs ∨
      ∃ d v, (1 ≤ d ∧ d < 8) ∧ s'.regs = Function.update s.regs (rIdx d) v := by
  simp only [simJeq] at h
  repeat' split at h
  all_goals
    first
      | exact StepRes.noConfusion h
      | (injection h with h2; subst h2; exact Or.inl rfl)

/-- Register-file frame of the `slti` helper. -/
theorem simSlti_regs (s : CoreState) (pc i : Int) (s' : CoreState)
    (h : simSlti s pc i = StepRes.next s') :
    s'.regs = s.regs ∨
      ∃ d v, (1 ≤ d ∧ d < 8) ∧ s'.regs = Function.update s.regs (rIdx d) v := by
  simp only [simSlti] at h
  repeat' split at h
  all_goals
    first
      | exact StepRes.noConfusion h
      | (injection h with h2; subst h2; exact Or.inl rfl)
      | (injection h with h2; subst h2;
         refine Or.inr ⟨_, _, ⟨?_, ?_⟩, rfl⟩ <;>
           first
             | decide
             | exact bitfield_one_le (by assumption)
             | exact bitfield_lt8 _ _)

/-- Case analysis of one sim.py step on the register file: a step that
continues either leaves the registers untouched or updates exactly one
register whose decoded index is in `[1, 8)` (register 0 is never the
target: `jr`, `j`, `jeq`, `sw` write no register, `jal` writes register 7,
and every other writer is guarded by `dst == 0`). -/
theorem simStep_regs_cases (s s' : CoreState) (h : simStep s = StepRes.next s') :
    s'.regs = s.regs ∨
      ∃ d v, (1 ≤ d ∧ d < 8) ∧ s'.regs = Function.update s.regs (rIdx d) v := by
  rcases hf : simFetch s.pc with _ | f
  · simp [simStep, hf] at h
  · simp only [simStep, hf] at h
    repeat' split at h
    all_goals
      first
        | exact StepRes.noConfusion h
        | (injection h with h2; subst h2; exact Or.inl rfl)
        | exact simArith_regs _ _ _ _ h
        | exact simAddi_regs _ _ _ _ h
        | exact simJ_regs _ _ _ _ h
        | exact simJal_regs _ _ _ _ h
        | exact simLw_regs _ _ _ _ h
        | exact simSw_regs _ _ _ _ h
        | exact simJeq_regs _ _ _ _ h
        | exact simSlti_regs _ _ _ _ h

/-- Register-file frame of the simcache opcode-0 helper. -/
theorem scArith_regs (st : SCState) (i : Int) (st' : SCState) (log : List LogEntry)
    (h : scArith st i = SCRes.next st' log) :
    st'.core.regs = st.core.regs ∨
      ∃ d v, (1 ≤ d ∧ d < 8) ∧ st'.core.regs = Function.update st.core.regs (rIdx d) v := by
  simp only [scArith] at h
  repeat' split at h
  all_goals
    first
      | exact SCRes.noConfusion h
      | (injection h with h2 h3; subst h2; exact Or.inl rfl)
      | (injection h with h2 h3; subst h2;
         refine Or.inr ⟨_, _, ⟨?_, ?_⟩, rfl⟩ <;>
           first
             | decide
             | exact bitfield_one_le (by assumption)
             | exact bitfield_lt8 _ _)

/-- Register-file frame of the simcache `addi` helper. -/
theorem scAddi_regs (st : SCState) (i : Int) (st' : SCState) (log : List LogEntry)
    (h : scAddi st i = SCRes.next st' log) :
    st'.core.regs = st.core.regs ∨
      ∃ d v, (1 ≤ d ∧ d < 8) ∧ st'.core.regs = Function.update st.core.regs (rIdx d) v := by
  simp only [scAddi] at h
  repeat' split at h
  all_goals
    first
      | exact SCRes.noConfusion h
      | (injection h with h2 h3; subst h2; exact Or.inl rfl)
      | (injection h with h2 h3; subst h2;
         refine Or.inr ⟨_, _, ⟨?_, ?_⟩, rfl⟩ <;>
           first
             | decide
             | exact bitfield_one_le (by assumption)
             | exact bitfield_lt8 _ _)

/-- Register-file frame of the simcache `j` helper. -/
theorem scJ_regs (st : SCState) (i : Int) (st' : SCState) (log : List LogEntry)
    (h : scJ st i = SCRes.next st' log) :
    st'.core.regs = st.core.regs ∨
      ∃ d v, (1 ≤ d ∧ d < 8) ∧ st'.core.regs = Function.update st.core.regs (rIdx d) v := by
  simp only [scJ] at h
  repeat' split at h
  all_goals
    first
      | exact SCRes.noConfusion h
      | (injection h with h2 h3; subst h2; exact Or.inl rfl)

/-- Register-file frame of the simcache `jal` helper. -/
theorem scJal_regs (st : SCState) (i : Int) (st' : SCState) (log : List LogEntry)
    (h : scJal st i = SCRes.next st' log) :
    st'.core.regs = st.core.regs ∨
      ∃ d v, (1 ≤ d ∧ d < 8) ∧ st'.core.regs = Function.update st.core.regs (rIdx d) v := by
  simp only [scJal] at h
  injection h with h2 h3
  subst h2
  exact Or.inr ⟨7, _, ⟨by decide, by decide⟩, rfl⟩

/-- Register-file frame of the simcache `lw` helper, for any cache
configuration. -/
theorem scLw_regs (cfg : Option CacheSetup) (st : SCState) (i : Int) (st' : SCState)
    (log : List LogEntry) (h : scLw cfg st i = SCRes.next st' log) :
    st'.core.regs = st.core.regs ∨
      ∃ d v, (1 ≤ d ∧ d < 8) ∧ st'.core.regs = Function.update st.core.regs (rIdx d) v := by
  simp only [scLw] at h
  repeat' split at h
  all_goals
    first
      | exact SCRes.noConfusion h
      | (injection h with h2 h3; subst h2; exact Or.inl rfl)
      | (injection h with h2 h3; subst h2;
         refine Or.inr ⟨_, _, ⟨?_, ?_⟩, rfl⟩ <;>
           first
             | decide
             | exact bitfield_one_le (by assumption)
             | exact bitfield_lt8 _ _)

/-- Register-file frame of the simcache `sw` helper: no register is
written, whatever the cache configuration. -/
theorem scSw_regs (cfg : Option CacheSetup) (st : SCState) (i : Int) (st' : SCState)
    (log : List LogEntry) (h : scSw cfg st i = SCRes.next st' log) :
    st'.core.regs = st.core.regs ∨
      ∃ d v, (1 ≤ d ∧ d < 8) ∧ st'.core.regs = Function.update st.core.regs (rIdx d) v := by
  simp only [scSw] at h
  repeat' split at h
  all_goals
    first
      | exact SCRes.noConfusion h
      | (injection h with h2 h3; subst h2; exact Or.inl rfl)

/-- Register-file frame of the simcache `jeq` helper. -/
theorem scJeq_regs (st : SCState) (i : Int) (st' : SCState) (log : List LogEntry)
    (h : scJeq st i = SCRes.next st' log) :
    st'.core.regs = st.core.regs ∨
      ∃ d v, (1 ≤ d ∧ d < 8) ∧ st'.core.regs = Function.update st.core.regs (rIdx d) v := by
  simp only [scJeq] at h
  repeat' split at h
  all_goals
    first
      | exact SCRes.noConfusion h
      | (injection h with h2 h3; subst h2; exact Or.inl rfl)

/-- Register-file frame of the simcache `slti` helper. -/
theorem scSlti_regs (st : SCState) (i : Int) (st' : SCState) (log : List LogEntry)
    (h : scSlti st i = SCRes.next st' log) :
    st'.core.regs = st.core.regs ∨
      ∃ d v, (1 ≤ d ∧ d < 8) ∧ st'.core.regs = Function.update st.core.regs (rIdx d) v := by
  simp only [scSlti] at h
  repeat' split at h
  all_goals
    first
      | exact SCRes.noConfusion h
      | (injection h with h2 h3; subst h2; exact Or.inl rfl)
      | (injection h with h2 h3; subst h2;
         refine Or.inr ⟨_, _, ⟨?_, ?_⟩, rfl⟩ <;>
           first
             | decide
             | exact bitfield_one_le (by assumption)
             | exact bitfield_lt8 _ _)

/-- Case analysis of one simcache.py step on the register file — the same
frame as for sim.py: at most one register with decoded index in `[1, 8)`
is written. -/
theorem scStep_regs_cases (cfg : Option CacheSetup) (st : SCState) (st' : SCState)
    (log : List LogEntry) (h : simcacheStep cfg st = SCRes.next st' log) :
    st'.core.regs = st.core.regs ∨
      ∃ d v, (1 ≤ d ∧ d < 8) ∧ st'.core.regs = Function.update st.core.regs (rIdx d) v := by
  rcases hf : scFetch st.core.pc with _ | f
  · simp [simcacheStep, hf] at h
  · simp only [simcacheStep, hf] at h
    repeat' split at h
    all_goals
      first
        | exact SCRes.noConfusion h
        | (injection h with h2 h3; subst h2; exact Or.inl rfl)
        | exact scArith_regs _ _ _ _ h
        | exact scAddi_regs _ _ _ _ h
        | exact scJ_regs _ _ _ _ h
        | exact scJal_regs _ _ _ _ h
        | exact scLw_regs _ _ _ _ _ h
        | exact scSw_regs _ _ _ _ _ h
        | exact scJeq_regs _ _ _ _ h
        | exact scSlti_regs _ _ _ _ h

/-- Memory frame of the sim.py opcode-0 helper: memory is untouched. -/
theorem simArith_mem (s : CoreState) (pc i : Int) (s' : CoreState)
    (h : simArith s pc i = StepRes.next s') : s'.mem = s.mem := by
  simp only [simArith] at h
  repeat' split at h
  all_goals
    first
      | exact StepRes.noConfusion h
      | (injection h with h2; subst h2; rfl)

/-- Memory frame of the sim.py `addi` helper. -/
theorem simAddi_mem (s : CoreState) (pc i : Int) (s' : CoreState)
    (h : simAddi s pc i = StepRes.next s') : s'.mem = s.mem := by
  simp only [simAddi] at h
  repeat' split at h
  all_goals
    first
      | exact StepRes.noConfusion h
      | (injection h with h2; subst h2; rfl)

/-- Memory frame of the sim.py `j` helper. -/
theorem simJ_mem (s : CoreState) (pc i : Int) (s' : CoreState)
    (h : simJ s pc i = StepRes.next s') : s'.mem = s.mem := by
  simp only [simJ] at h
  repeat' split at h
  all_goals
    first
      | exact StepRes.noConfusion h
      | (injection h with h2; subst h2; rfl)

/-- Memory frame of the sim.py `jal` helper. -/
theorem simJal_mem (s : CoreState) (pc i : Int) (s' : CoreState)
    (h : simJal s pc i = StepRes.next s') : s'.mem = s.mem := by
  simp only [simJal] at h
  injection h with h2
  subst h2
  rfl

/-- Memory frame of the sim.py `lw` helper: a load does not write
memory. -/
theorem simLw_mem (s : CoreState) (pc i : Int) (s' : CoreState)
    (h : simLw s pc i = StepRes.next s') : s'.mem = s.mem := by
  simp only [simLw] at h
  repeat' split at h
  all_goals
    first
      | exact StepRes.noConfusion h
      | (injection h with h2; subst h2; rfl)

/-- Memory frame of the sim.py `jeq` helper. -/
theorem simJeq_mem (s : CoreState) (pc i : Int) (s' : CoreState)
    (h : simJeq s pc i = StepRes.next s') : s'.mem = s.mem := by
  simp only [simJeq] at h
  repeat' split at h
  all_goals
    first
      | exact StepRes.noConfusion h
      | (injection h with h2; subst h2; rfl)

/-- Memory frame of the sim.py `slti` helper. -/
theorem simSlti_mem (s : CoreState) (pc i : Int) (s' : CoreState)
    (h : simSlti s pc i = StepRes.next s') : s'.mem = s.mem := by
  simp only [simSlti] at h
  repeat' split at h
  all_goals
    first
      | exact StepRes.noConfusion h
      | (injection h with h2; subst h2; rfl)

/-- The sim.py `sw` helper writes exactly the one memory word at the
folded effective address. -/
theorem simSw_addr (s : CoreState) (pc i : Int) (s' : CoreState)
    (h : simSw s pc i = StepRes.next s') :
    ∃ a, memIdx (effAddr (bitfield i 0 7) (getReg s (bitfield i 10 3))) = some a ∧
      s'.mem = Function.update s.mem a (getReg s (bitfield i 7 3)) := by
  simp only [simSw] at h
  repeat' split at h
  all_goals
    first
      | exact StepRes.noConfusion h
      | (injection h with h2; subst h2; exact ⟨_, by assumption, rfl⟩)

/-- Case analysis of one sim.py step on memory: every instruction except
`sw` leaves memory unchanged, and `sw` writes exactly the one word at the
folded effective address. -/
theorem simStep_mem_cases (s s' : CoreState) (f : Fin 8192)
    (hf : simFetch s.pc = some f) (h : simStep s = StepRes.next s') :
    (bitfield (s.mem f) 13 3 ≠ 5 → s'.mem = s.mem) ∧
    (bitfield (s.mem f) 13 3 = 5 →
      ∃ a, memIdx (effAddr (bitfield (s.mem f) 0 7) (getReg s (bitfield (s.mem f) 10 3)))
          = some a ∧
        s'.mem = Function.update s.mem a (getReg s (bitfield (s.mem f) 7 3))) := by
  simp only [simStep, hf] at h
  repeat' split at h
  all_goals
    first
      | exact StepRes.noConfusion h
      | (refine ⟨fun hne => ?_, fun h5 => ?_⟩ <;>
         first
           | exact absurd (by assumption) hne
           | exact absurd h5 (by assumption)
           | omega
           | exact simArith_mem _ _ _ _ h
           | exact simAddi_mem _ _ _ _ h
           | exact simJ_mem _ _ _ _ h
           | exact simJal_mem _ _ _ _ h
           | exact simLw_mem _ _ _ _ h
           | exact simJeq_mem _ _ _ _ h
           | exact simSlti_mem _ _ _ _ h
           | exact simSw_addr _ _ _ _ h
           | (injection h with h2; subst h2; rfl))

/-- Memory frame of the simcache opcode-0 helper. -/
theorem scArith_mem (st : SCState) (i : Int) (st' : SCState) (log : List LogEntry)
    (h : scArith st i = SCRes.next st' log) : st'.core.mem = st.core.mem := by
  simp only [scArith] at h
  repeat' split at h
  all_goals
    first
      | exact SCRes.noConfusion h
      | (injection h with h2 h3; subst h2; rfl)

/-- Memory frame of the simcache `addi` helper. -/
theorem scAddi_mem (st : SCState) (i : Int) (st' : SCState) (log : List LogEntry)
    (h : scAddi st i = SCRes.next st' log) : st'.core.mem = st.core.mem := by
  simp only [scAddi] at h
  repeat' split at h
  all_goals
    first
      | exact SCRes.noConfusion h
      | (injection h with h2 h3; subst h2; rfl)

/-- Memory frame of the simcache `j` helper. -/
theorem scJ_mem (st : SCState) (i : Int) (st' : SCState) (log : List LogEntry)
    (h : scJ st i = SCRes.next st' log) : st'.core.mem = st.core.mem := by
  simp only [scJ] at h
  repeat' split at h
  all_goals
    first
      | exact SCRes.noConfusion h
      | (injection h with h2 h3; subst h2; rfl)

/-- Memory frame of the simcache `jal` helper. -/
theorem scJal_mem (st : SCState) (i : Int) (st' : SCState) (log : List LogEntry)
    (h : scJal st i = SCRes.next st' log) : st'.core.mem = st.core.mem := by
  simp only [scJal] at h
  injection h with h2 h3
  subst h2
  rfl

/-- Memory frame of the simcache `lw` helper, for any configuration. -/
theorem scLw_mem (cfg : Option CacheSetup) (st : SCState) (i : Int) (st' : SCState)
    (log : List LogEntry) (h : scLw cfg st i = SCRes.next st' log) :
    st'.core.mem = st.core.mem := by
  simp only [scLw] at h
  repeat' split at h
  all_goals
    first
      | exact SCRes.noConfusion h
      | (injection h with h2 h3; subst h2; rfl)

/-- Memory frame of the simcache `jeq` helper. -/
theorem scJeq_mem (st : SCState) (i : Int) (st' : SCState) (log : List LogEntry)
    (h : scJeq st i = SCRes.next st' log) : st'.core.mem = st.core.mem := by
  simp only [scJeq] at h
  repeat' split at h
  all_goals
    first
      | exact SCRes.noConfusion h
      | (injection h with h2 h3; subst h2; rfl)

/-- Memory frame of the simcache `slti` helper. -/
theorem scSlti_mem (st : SCState) (i : Int) (st' : SCState) (log : List LogEntry)
    (h : scSlti st i = SCRes.next st' log) : st'.core.mem = st.core.mem := by
  simp only [scSlti] at h
  repeat' split at h
  all_goals
    first
      | exact SCRes.noConfusion h
      | (injection h with h2 h3; subst h2; rfl)

/-- The simcache `sw` helper writes exactly the one memory word at the
folded effective address, whatever the configuration. -/
theorem scSw_addr (cfg : Option CacheSetup) (st : SCState) (i : Int) (st' : SCState)
    (log : List LogEntry) (h : scSw cfg st i = SCRes.next st' log) :
    ∃ a, memIdx (effAddr (bitfield i 0 7) (getReg st.core (bitfield i 10 3))) = some a ∧
      st'.core.mem = Function.update st.core.mem a (getReg st.core (bitfield i 7 3)) := by
  simp only [scSw] at h
  repeat' split at h
  all_goals
    first
      | exact SCRes.noConfusion h
      | (injection h with h2 h3; subst h2; exact ⟨_, by assumption, rfl⟩)

/-- Case analysis of one simcache.py step on memory — the same frame as
for sim.py. -/
theorem scStep_mem_cases (cfg : Option CacheSetup) (st st' : SCState)
    (log : List LogEntry) (f : Fin 8192) (hf : scFetch st.core.pc = some f)
    (h : simcacheStep cfg st = SCRes.next st' log) :
    (bitfield (st.core.mem f) 13 3 ≠ 5 → st'.core.mem = st.core.mem) ∧
    (bitfield (st.core.mem f) 13 3 = 5 →
      ∃ a, memIdx (effAddr (bitfield (st.core.mem f) 0 7)
            (getReg st.core (bitfield (st.core.mem f) 10 3))) = some a ∧
        st'.core.mem = Function.update st.core.mem a
          (getReg st.core (bitfield (st.core.mem f) 7 3))) := by
  simp only [simcacheStep, hf] at h
  repeat' split at h
  all_goals
    first
      | exact SCRes.noConfusion h
      | (refine ⟨fun hne => ?_, fun h5 => ?_⟩ <;>
         first
           | exact absurd (by assumption) hne
           | exact absurd h5 (by assumption)
           | omega
           | exact scArith_mem _ _ _ _ h
           | exact scAddi_mem _ _ _ _ h
           | exact scJ_mem _ _ _ _ h
           | exact scJal_mem _ _ _ _ h
           | exact scLw_mem _ _ _ _ _ h
           | exact scJeq_mem _ _ _ _ h
           | exact scSlti_mem _ _ _ _ h
           | exact scSw_addr _ _ _ _ _ h
           | (injection h with h2 h3; subst h2; rfl))

/-- The decoded instruction has destination field 0 and is a register
writer: opcode 0 with a function code other than `jr` (8), or opcode 1
(`addi`), 4 (`lw`) or 7 (`slti`), each with a zero `dst` field. -/
def dstZero (i : Int) : Prop :=
  (bitfield i 13 3 = 0 ∧ ¬ bitfield i 0 4 = 8 ∧ bitfield i 4 3 = 0) ∨
    ((bitfield i 13 3 = 1 ∨ bitfield i 13 3 = 4 ∨ bitfield i 13 3 = 7) ∧
      bitfield i 7 3 = 0)

instance (i : Int) : Decidable (dstZero i) := by
  unfold dstZero
  infer_instance

/-- Opcode-0 with `dst = 0` and no `jr`: sim.py only advances the pc. -/
theorem simArith_dst0 (s : CoreState) (pc i : Int) (h8 : ¬ bitfield i 0 4 = 8)
    (hd : bitfield i 4 3 = 0) : simArith s pc i = StepRes.next { s with pc := pc + 1 } := by
  simp only [simArith]
  rw [if_neg h8, if_pos hd]

/-- `addi` with `dst = 0`: sim.py only advances the pc. -/
theorem simAddi_dst0 (s : CoreState) (pc i : Int) (hd : bitfield i 7 3 = 0) :
    simAddi s pc i = StepRes.next { s with pc := pc + 1 } := by
  simp only [simAddi]
  rw [if_pos hd]

/-- `lw` with `dst = 0`: sim.py elides the load and only advances the
pc. -/
theorem simLw_dst0 (s : CoreState) (pc i : Int) (hd : bitfield i 7 3 = 0) :
    simLw s pc i = StepRes.next { s with pc := pc + 1 } := by
  simp only [simLw]
  rw [if_pos hd]

/-- `slti` with `dst = 0`: sim.py only advances the pc. -/
theorem simSlti_dst0 (s : CoreState) (pc i : Int) (hd : bitfield i 7 3 = 0) :
    simSlti s pc i = StepRes.next { s with pc := pc + 1 } := by
  simp only [simSlti]
  rw [if_pos hd]

/-- A sim.py step on a zero-destination instruction performs no register
or memory mutation and advances the (masked) pc by one. -/
theorem sim_dst_zero (s : CoreState) (f : Fin 8192) (hf : simFetch s.pc = some f)
    (hz : dstZero (s.mem f)) :
    simStep s = StepRes.next
      { s with pc := (if s.pc > 8191 then Int.emod s.pc 8192 else s.pc) + 1 } := by
  simp only [simStep, hf]
  rcases hz with ⟨h0, h8, hd⟩ | ⟨h1 | h1 | h1, hd⟩
  · rw [if_pos h0]
    exact simArith_dst0 _ _ _ h8 hd
  · rw [if_neg (show ¬ bitfield (s.mem f) 13 3 = 0 by omega), if_pos h1]
    exact simAddi_dst0 _ _ _ hd
  · rw [if_neg (show ¬ bitfield (s.mem f) 13 3 = 0 by omega),
      if_neg (show ¬ bitfield (s.mem f) 13 3 = 1 by omega),
      if_neg (show ¬ bitfield (s.mem f) 13 3 = 2 by omega),
      if_neg (show ¬ bitfield (s.mem f) 13 3 = 3 by omega), if_pos h1]
    exact simLw_dst0 _ _ _ hd
  · rw [if_neg (show ¬ bitfield (s.mem f) 13 3 = 0 by omega),
      if_neg (show ¬ bitfield (s.mem f) 13 3 = 1 by omega),
      if_neg (show ¬ bitfield (s.mem f) 13 3 = 2 by omega),
      if_neg (show ¬ bitfield (s.mem f) 13 3 = 3 by omega),
      if_neg (show ¬ bitfield (s.mem f) 13 3 = 4 by omega),
      if_neg (show ¬ bitfield (s.mem f) 13 3 = 5 by omega),
      if_neg (show ¬ bitfield (s.mem f) 13 3 = 6 by omega), if_pos h1]
    exact simSlti_dst0 _ _ _ hd

/-- Opcode-0 with `dst = 0` and no `jr`: simcache.py only advances the
pc. -/
theorem scArith_dst0 (st : SCState) (i : Int) (h8 : ¬ bitfield i 0 4 = 8)
    (hd : bitfield i 4 3 = 0) :
    scArith st i = SCRes.next { st with core := { st.core with pc := st.core.pc + 1 } } [] := by
  simp only [scArith]
  rw [if_neg h8, if_pos hd]

/-- `addi` with `dst = 0`: simcache.py only advances the pc. -/
theorem scAddi_dst0 (st : SCState) (i : Int) (hd : bitfield i 7 3 = 0) :
    scAddi st i = SCRes.next { st with core := { st.core with pc := st.core.pc + 1 } } [] := by
  simp only [scAddi]
  rw [if_pos hd]

/-- `lw` with `dst = 0`: simcache.py elides the load, touches no cache and
emits no trace line, for any configuration. -/
theorem scLw_dst0 (cfg : Option CacheSetup) (st : SCState) (i : Int)
    (hd : bitfield i 7 3 = 0) :
    scLw cfg st i = SCRes.next { st with core := { st.core with pc := st.core.pc + 1 } } [] := by
  simp only [scLw]
  rw [if_pos hd]

/-- `slti` with `dst = 0`: simcache.py only advances the pc. -/
theorem scSlti_dst0 (st : SCState) (i : Int) (hd : bitfield i 7 3 = 0) :
    scSlti st i = SCRes.next { st with core := { st.core with pc := st.core.pc + 1 } } [] := by
  simp only [scSlti]
  rw [if_pos hd]

/-- A simcache.py step on a zero-destination instruction performs no
register, memory or cache mutation, emits no trace line, and advances the
raw pc by one. -/
theorem sc_dst_zero (cfg : Option CacheSetup) (st : SCState) (f : Fin 8192)
    (hf : scFetch st.core.pc = some f) (hz : dstZero (st.core.mem f)) :
    simcacheStep cfg st =
      SCRes.next { st with core := { st.core with pc := st.core.pc + 1 } } [] := by
  simp only [simcacheStep, hf]
  rcases hz with ⟨h0, h8, hd⟩ | ⟨h1 | h1 | h1, hd⟩
  · rw [if_pos h0]
    exact scArith_dst0 _ _ h8 hd
  · rw [if_neg (show ¬ bitfield (st.core.mem f) 13 3 = 0 by omega), if_pos h1]
    exact scAddi_dst0 _ _ hd
  · rw [if_neg (show ¬ bitfield (st.core.mem f) 13 3 = 0 by omega),
      if_neg (show ¬ bitfield (st.core.mem f) 13 3 = 1 by omega),
      if_neg (show ¬ bitfield (st.core.mem f) 13 3 = 2 by omega),
      if_neg (show ¬ bitfield (st.core.mem f) 13 3 = 3 by omega), if_pos h1]
    exact scLw_dst0 _ _ _ hd
  · rw [if_neg (show ¬ bitfield (st.core.mem f) 13 3 = 0 by omega),
      if_neg (show ¬ bitfield (st.core.mem f) 13 3 = 1 by omega),
      if_neg (show ¬ bitfield (st.core.mem f) 13 3 = 2 by omega),
      if_neg (show ¬ bitfield (st.core.mem f) 13 3 = 3 by omega),
      if_neg (show ¬ bitfield (st.core.mem f) 13 3 = 4 by omega),
      if_neg (show ¬ bitfield (st.core.mem f) 13 3 = 5 by omega),
      if_neg (show ¬ bitfield (st.core.mem f) 13 3 = 6 by omega), if_pos h1]
    exact scSlti_dst0 _ _ hd

/-- C8: the zero-register discipline.  In both sim.py and simcache.py a
continuing step never changes register 0 (every writer updates a register
with decoded index in `[1, 8)`; `jal`'s fixed link register is 7), and an
instruction whose destination field is 0 performs no register mutation at
all while the program counter still advances by one (the masked pc in
sim.py, the raw pc in simcache.py). -/
theorem zero_register_invariant :
    (∀ s s', simStep s = StepRes.next s' → s'.regs (rIdx 0) = s.regs (rIdx 0)) ∧
    (∀ cfg st st' log, simcacheStep cfg st = SCRes.next st' log →
        st'.core.regs (rIdx 0) = st.core.regs (rIdx 0)) ∧
    (∀ s f, simFetch s.pc = some f → dstZero (s.mem f) →
        simStep s = StepRes.next
          { s with pc := (if s.pc > 8191 then Int.emod s.pc 8192 else s.pc) + 1 }) ∧
    (∀ cfg st f, scFetch st.core.pc = some f → dstZero (st.core.mem f) →
        simcacheStep cfg st =
          SCRes.next { st with core := { st.core with pc := st.core.pc + 1 } } []) := by
  refine ⟨?_, ?_, ?_, ?_⟩
  · intro s s' h
    rcases simStep_regs_cases s s' h with he | ⟨d, v, ⟨hd1, hd2⟩, he⟩
    · rw [he]
    · rw [he]
      exact Function.update_noteq (rIdx_ne_zero hd1 hd2) _ _
  · intro cfg st st' log h
    rcases scStep_regs_cases cfg st st' log h with he | ⟨d, v, ⟨hd1, hd2⟩, he⟩
    · rw [he]
    · rw [he]
      exact Function.update_noteq (rIdx_ne_zero hd1 hd2) _ _
  · exact sim_dst_zero
  · exact sc_dst_zero

/-- Program D: a single `addi $0, $0, 1` (machine word 8193), whose
destination field is register 0. -/
def memD : Fin 8192 → Int := fun a => if a.val = 0 then 8193 else 0

/-- Initial sim.py state for program D. -/
def initD : CoreState := ⟨0, regs0, memD⟩

/-- Witness for `zero_register_invariant`: the `addi $0, $0, 1` step of
program D mutates nothing but the pc. -/
theorem zero_register_invariant_witness :
    simStep initD = StepRes.next
      { initD with pc := (if initD.pc > 8191 then Int.emod initD.pc 8192 else initD.pc) + 1 } :=
  zero_register_invariant.2.2.1 initD (idx13 0) (by decide) (by decide)

/-- C9: a self-targeting `j` halts immediately.  If the word at the
(in-range) pc decodes to opcode 2 with its 13-bit target equal to the pc,
then for any remaining step budget the run stops in the `halted` outcome
carrying the state unchanged: the final pc is the instruction's own
address and no register or memory word is modified. -/
theorem self_jump_halts (s : CoreState) (h0 : 0 ≤ s.pc) (h1 : s.pc ≤ 8191)
    (hop : bitfield (s.mem (idx13 s.pc)) 13 3 = 2)
    (htg : bitfield (s.mem (idx13 s.pc)) 0 13 = s.pc) :
    ∀ n : Nat, simRunN (n + 1) s = SimOutcome.halted s := by
  have hm : ¬ s.pc > 8191 := by omega
  have hf : simFetch s.pc = some (idx13 s.pc) := by
    unfold simFetch memIdx
    rw [if_neg hm, if_pos ⟨by omega, by omega⟩]
  have hstep : simStep s = StepRes.halted s := by
    simp only [simStep, hf]
    rw [if_neg (show ¬ bitfield (s.mem (idx13 s.pc)) 13 3 = 0 by omega),
      if_neg (show ¬ bitfield (s.mem (idx13 s.pc)) 13 3 = 1 by omega), if_pos hop,
      if_neg hm]
    simp only [simJ]
    rw [htg, if_pos rfl]
  intro n
  simp [simRunN, hstep]

/-- Program E: a single self-targeting `j 0` (machine word 16384). -/
def memE : Fin 8192 → Int := fun a => if a.val = 0 then 16384 else 0

/-- Initial sim.py state for program E. -/
def initE : CoreState := ⟨0, regs0, memE⟩

/-- Witness for `self_jump_halts` on program E. -/
theorem self_jump_halts_witness : simRunN 1 initE = SimOutcome.halted initE :=
  self_jump_halts initE (by decide) (by decide) (by decide) (by decide) 0

/-- The sim.py opcode-0 helper never breaks the loop. -/
theorem simArith_no_halt (s : CoreState) (pc i : Int) (t : CoreState) :
    simArith s pc i ≠ StepRes.halted t := by
  intro h
  simp only [simArith] at h
  repeat' split at h
  all_goals exact StepRes.noConfusion h

/-- The sim.py `addi` helper never breaks the loop. -/
theorem simAddi_no_halt (s : CoreState) (pc i : Int) (t : CoreState) :
    simAddi s pc i ≠ StepRes.halted t := by
  intro h
  simp only [simAddi] at h
  repeat' split at h
  all_goals exact StepRes.noConfusion h

/-- The sim.py `jal` helper never breaks the loop. -/
theorem simJal_no_halt (s : CoreState) (pc i : Int) (t : CoreState) :
    simJal s pc i ≠ StepRes.halted t := by
  intro h
  simp only [simJal] at h
  exact StepRes.noConfusion h

/-- The sim.py `lw` helper never breaks the loop. -/
theorem simLw_no_halt (s : CoreState) (pc i : Int) (t : CoreState) :
    simLw s pc i ≠ StepRes.halted t := by
  intro h
  simp only [simLw] at h
  repeat' split at h
  all_goals exact StepRes.noConfusion h

/-- The sim.py `sw` helper never breaks the loop. -/
theorem simSw_no_halt (s : CoreState) (pc i : Int) (t : CoreState) :
    simSw s pc i ≠ StepRes.halted t := by
  intro h
  simp only [simSw] at h
  repeat' split at h
  all_goals exact StepRes.noConfusion h

/-- The sim.py `jeq` helper never breaks the loop. -/
theorem simJeq_no_halt (s : CoreState) (pc i : Int) (t : CoreState) :
    simJeq s pc i ≠ StepRes.halted t := by
  intro h
  simp only [simJeq] at h
  repeat' split at h
  all_goals exact StepRes.noConfusion h

/-- The sim.py `slti` helper never breaks the loop. -/
theorem simSlti_no_halt (s : CoreState) (pc i : Int) (t : CoreState) :
    simSlti s pc i ≠ StepRes.halted t := by
  intro h
  simp only [simSlti] at h
  repeat' split at h
  all_goals exact StepRes.noConfusion h

/-- When the sim.py `j` helper breaks the loop, the state it leaves is the
input state with the (already masked) pc written back. -/
theorem simJ_halt (s : CoreState) (pc i : Int) (t : CoreState)
    (h : simJ s pc i = StepRes.halted t) : t = { s with pc := pc } := by
  simp only [simJ] at h
  split at h
  · injection h with h2
    exact h2.symm
  · exact StepRes.noConfusion h

/-- Shape of the state carried out of a halting sim.py iteration: no
register and no memory word differs from the boundary state, and the pc
is the boundary pc with the 13-bit mask applied when it exceeded 8191 —
the line-80 write-back is part of the halt iteration. -/
theorem simStep_halted_cases (s t : CoreState) (h : simStep s = StepRes.halted t) :
    t.regs = s.regs ∧ t.mem = s.mem ∧
      t.pc = (if s.pc > 8191 then Int.emod s.pc 8192 else s.pc) := by
  rcases hf : simFetch s.pc with _ | f
  · simp [simStep, hf] at h
  · simp only [simStep, hf] at h
    repeat' split at h
    all_goals
      first
        | exact StepRes.noConfusion h
        | exact absurd h (simArith_no_halt _ _ _ _)
        | exact absurd h (simAddi_no_halt _ _ _ _)
        | exact absurd h (simJal_no_halt _ _ _ _)
        | exact absurd h (simLw_no_halt _ _ _ _)
        | exact absurd h (simSw_no_halt _ _ _ _)
        | exact absurd h (simJeq_no_halt _ _ _ _)
        | exact absurd h (simSlti_no_halt _ _ _ _)
        | (rw [simJ_halt _ _ _ _ h]
           refine ⟨rfl, rfl, ?_⟩
           split <;> first | rfl | omega)

/-- Program F: `lw $1, $0, 2` (word 32898) loads the data word 8292 held
at address 2, `jr $1` (word 1032) jumps there, and the self-targeting
`j 100` (word 16484) sits at address 100 = 8292 mod 8192. -/
def memF : Fin 8192 → Int :=
  fun a => if a.val = 0 then 32898 else if a.val = 1 then 1032
    else if a.val = 2 then 8292 else if a.val = 100 then 16484 else 0

/-- Initial sim.py state for program F. -/
def initF : CoreState := ⟨0, regs0, memF⟩

/-- C10 counterexample: the claim says the step on which halt is detected
changes no register, no memory word, and not the program counter.  The pc
clause is false for sim.py: after two steps of program F the boundary pc
is 8292; the third iteration writes the 13-bit mask back (line 80),
fetches the self-targeting `j 100` at address 100, and breaks — so the
halt-detecting step changed the pc from 8292 to the final 100. -/
theorem halt_step_changes_pc :
    simOutPC (simRunN 2 initF) = some 8292 ∧
      simIsHalted (simRunN 3 initF) = true ∧
      simOutPC (simRunN 3 initF) = some 100 ∧ ((8292 : Int) ≠ 100) :=
  ⟨by decide, by decide, by decide, by decide⟩

/-- C10 amended: frame conditions of a single step, in both simulators.
A continuing step changes at most one register (all others are
untouched); memory is unchanged unless the instruction is `sw`, which
writes exactly the one word at the folded effective address.  The step on
which the self-jump halt is detected changes no register and no memory
word; in simcache.py it also leaves the pc unchanged, while in sim.py the
halt iteration has already written the 13-bit mask back into the pc
(line 80), so from a boundary pc above 8191 the halt step changes the pc
to `pc mod 8192` — the run outcome carries exactly the state the loop
left. -/
theorem step_frame_conditions :
    (∀ s s', simStep s = StepRes.next s' →
        ∃ d : Fin 8, ∀ i, i ≠ d → s'.regs i = s.regs i) ∧
    (∀ s s' f, simFetch s.pc = some f → simStep s = StepRes.next s' →
        (bitfield (s.mem f) 13 3 ≠ 5 → s'.mem = s.mem) ∧
        (bitfield (s.mem f) 13 3 = 5 →
          ∃ a, memIdx (effAddr (bitfield (s.mem f) 0 7) (getReg s (bitfield (s.mem f) 10 3)))
              = some a ∧
            s'.mem = Function.update s.mem a (getReg s (bitfield (s.mem f) 7 3)))) ∧
    (∀ s t, simStep s = StepRes.halted t →
        t.regs = s.regs ∧ t.mem = s.mem ∧
        t.pc = (if s.pc > 8191 then Int.emod s.pc 8192 else s.pc) ∧
        ∀ n, simRunN (n + 1) s = SimOutcome.halted t) ∧
    (∀ cfg st st' log, simcacheStep cfg st = SCRes.next st' log →
        ∃ d : Fin 8, ∀ i, i ≠ d → st'.core.regs i = st.core.regs i) ∧
    (∀ cfg st st' log f, scFetch st.core.pc = some f →
        simcacheStep cfg st = SCRes.next st' log →
        (bitfield (st.core.mem f) 13 3 ≠ 5 → st'.core.mem = st.core.mem) ∧
        (bitfield (st.core.mem f) 13 3 = 5 →
          ∃ a, memIdx (effAddr (bitfield (st.core.mem f) 0 7)
                (getReg st.core (bitfield (st.core.mem f) 10 3))) = some a ∧
            st'.core.mem = Function.update st.core.mem a
              (getReg st.core (bitfield (st.core.mem f) 7 3)))) ∧
    (∀ cfg st, simcacheStep cfg st = SCRes.halted →
        ∀ n, scRunN cfg (n + 1) st = SCOutcome.halted st) := by
  refine ⟨?_, ?_, ?_, ?_, ?_, ?_⟩
  · intro s s' h
    rcases simStep_regs_cases s s' h with he | ⟨d, v, _, he⟩
    · exact ⟨rIdx 0, fun i _ => by rw [he]⟩
    · exact ⟨rIdx d, fun i hi => by rw [he]; exact Function.update_noteq hi _ _⟩
  · intro s s' f hf h
    exact simStep_mem_cases s s' f hf h
  · intro s t h
    obtain ⟨h1, h2, h3⟩ := simStep_halted_cases s t h
    exact ⟨h1, h2, h3, fun n => by simp [simRunN, h]⟩
  · intro cfg st st' log h
    rcases scStep_regs_cases cfg st st' log h with he | ⟨d, v, _, he⟩
    · exact ⟨rIdx 0, fun i _ => by rw [he]⟩
    · exact ⟨rIdx d, fun i hi => by rw [he]; exact Function.update_noteq hi _ _⟩
  · intro cfg st st' log f hf h
    exact scStep_mem_cases cfg st st' log f hf h
  · intro cfg st hs n
    simp [scRunN, hs]

/-- Initial simcache.py state for program E. -/
def scInitE : SCState := ⟨initE, [], []⟩

/-- Witness for `step_frame_conditions`: the halt step of simcache.py on
program E leaves the state untouched. -/
theorem step_frame_conditions_witness :
    scRunN Option.none 1 scInitE = SCOutcome.halted scInitE :=
  step_frame_conditions.2.2.2.2.2 Option.none scInitE (by rfl) 0
